import Mathlib

/-!
Verification of the gonum `mat` reduction, traversal and kernel layer.

The repository code available here consists of the test suites
(`mat/matrix_test.go`, the `testlapack` Dlascl test); the library
implementations they exercise live elsewhere in the repository.  Following
the specification, those implementations are modelled over exact rational
arithmetic (`ℚ`): floating-point accumulation tolerances in the tests become
exact equalities in the model.  Each matrix variant is embedded with the
row-major strided storage layout the library uses, and the reductions
(determinant, norm, trace, sum), structural-nonzero traversal and the
specialized matrix-vector kernels are defined over that storage.
-/

namespace Gonum

/-- The error taxonomy of the `mat` package (§7 of the specification):
shape errors, the distinct zero-length error raised by `Norm`, the
singular-matrix error raised by solve-based operations, and the
structural-violation error raised by writes outside the mutable region. -/
inductive MatErr where
  | shape
  | zeroLength
  | singular
  | structural
deriving DecidableEq

/-- A general dense matrix: row-major storage, stride equal to the number
of columns (as built by `NewDense`). -/
structure Dense where
  rows : Nat
  cols : Nat
  data : List ℚ
deriving DecidableEq

/-- Element read `At` for `Dense`: the element at row `i`, column `j`, read from the
row-major buffer; out-of-range reads are 0 in the model (the library
panics, but no claim exercises out-of-range `At`). -/
def Dense.At (a : Dense) (i j : Nat) : ℚ :=
  if i < a.rows ∧ j < a.cols then a.data.getD (i * a.cols + j) 0 else 0

/-- The rows of a dense matrix as lists, read through `At`.  This models
the clone that `Det` and `Cond` make of their argument: the working copy
handed to the elimination is built from the input and is a distinct value. -/
def Dense.toRows (a : Dense) : List (List ℚ) :=
  (List.range a.rows).map (fun i => (List.range a.cols).map (fun j => a.At i j))

/-- The absolute value of a rational, written so that it reduces on
concrete arguments. -/
def ratAbs (x : ℚ) : ℚ := if x < 0 then -x else x

/-- Index of the first entry of maximal absolute value in a list
(partial-pivot selection, as `Idamax` does: strict improvement keeps the
first maximum). -/
def argmaxAbs (l : List ℚ) : Nat :=
  (l.foldl (fun (st : Nat × Nat × ℚ) x =>
    if ratAbs x > st.2.2 then (st.2.1, st.2.1 + 1, ratAbs x) else (st.1, st.2.1 + 1, st.2.2))
    (0, 0, 0)).1

/-- Modelled from the spec: the LU determinant engine (`mat.Det` via
`LU.Factorize`) is not under `src/`; §4.4 specifies an LU-style elimination
with partial pivoting where a zero pivot yields determinant 0 rather than
an error.  `detGo n rows` eliminates an `n×n` system: pick the pivot row
with the largest absolute leading entry, swap it to the front (each swap
flips the sign), eliminate the leading column and recurse on the minor. -/
def detGo : Nat → List (List ℚ) → ℚ
  | 0, _ => 1
  | n + 1, rows =>
    let p := argmaxAbs (rows.map (fun r => r.headD 0))
    let piv := (rows.getD p []).headD 0
    if piv = 0 then 0
    else
      let pr := (rows.getD p []).tail
      let rest := rows.eraseIdx p
      let reduced := rest.map (fun r =>
        List.zipWith (fun x y => x - r.headD 0 / piv * y) r.tail pr)
      (if p % 2 = 0 then 1 else -1) * piv * detGo n reduced

/-- Modelled from the spec: `mat.Det` requires a square input (shape error
otherwise) and returns the LU determinant as an ordinary value — singular
input is not an error (§4.4). -/
def Dense.Det (a : Dense) : Except MatErr ℚ :=
  if a.rows = a.cols then .ok (detGo a.rows a.toRows) else .error .shape

/-- A call to `Det` as the caller observes it: the returned value together
with the contents of the argument matrix after the call.  The elimination
runs on the clone `a.toRows`; the caller's matrix is returned unchanged. -/
def Dense.DetCall (a : Dense) : Except MatErr ℚ × Dense :=
  (a.Det, a)

/-- The 2×2 identity from `TestDet`. -/
def detEye2 : Dense := ⟨2, 2, [1, 0, 0, 1]⟩

/-- The 2×2 matrix `[[1,0],[0,-1]]` from `TestDet`. -/
def detDiag2 : Dense := ⟨2, 2, [1, 0, 0, -1]⟩

/-- The 3×3 matrix `[[1,2,0],[0,1,2],[0,2,1]]` from `TestDet`. -/
def detMat3 : Dense := ⟨3, 3, [1, 2, 0, 0, 1, 2, 0, 2, 1]⟩

/-- The rank-deficient 3×3 matrix `[[1,2,3],[5,7,9],[6,9,12]]` from
`TestDet`. -/
def detSing3 : Dense := ⟨3, 3, [1, 2, 3, 5, 7, 9, 6, 9, 12]⟩

/-- Which triangle of a symmetric or triangular matrix is stored. -/
inductive Uplo where
  | upper
  | lower
deriving DecidableEq

/-- A symmetric matrix stored in the upper triangle of a full `n×n`
row-major buffer (as built by `NewSymDense`, `Uplo = Upper`). -/
structure SymDense where
  n : Nat
  data : List ℚ
deriving DecidableEq

/-- Element read `At` for `SymDense`: reads in the strict lower triangle mirror the
stored upper triangle — computed, not stored twice (§4.1). -/
def SymDense.At (a : SymDense) (i j : Nat) : ℚ :=
  if i < a.n ∧ j < a.n then
    if i ≤ j then a.data.getD (i * a.n + j) 0 else a.data.getD (j * a.n + i) 0
  else 0

/-- A triangular matrix (non-unit diagonal, as built by `NewTriDense`)
stored in one triangle of a full `n×n` row-major buffer. -/
structure TriDense where
  n : Nat
  uplo : Uplo
  data : List ℚ
deriving DecidableEq

/-- Element read `At` for `TriDense`: reads outside the stored triangle are the implied
value 0 (§4.1). -/
def TriDense.At (a : TriDense) (i j : Nat) : ℚ :=
  if i < a.n ∧ j < a.n then
    match a.uplo with
    | .upper => if i ≤ j then a.data.getD (i * a.n + j) 0 else 0
    | .lower => if j ≤ i then a.data.getD (i * a.n + j) 0 else 0
  else 0

/-- A column vector of length `n` with unit increment (as built by
`NewVecDense`). -/
structure VecDense where
  n : Nat
  data : List ℚ
deriving DecidableEq

/-- A matrix seen through the base capability interface (§4.2): the
dimensions and the generic element read. -/
structure MatV where
  r : Nat
  c : Nat
  el : Nat → Nat → ℚ

/-- The capability view of a dense matrix. -/
def Dense.toMatV (a : Dense) : MatV := ⟨a.rows, a.cols, a.At⟩

/-- The capability view of a symmetric matrix. -/
def SymDense.toMatV (a : SymDense) : MatV := ⟨a.n, a.n, a.At⟩

/-- The capability view of a triangular matrix. -/
def TriDense.toMatV (a : TriDense) : MatV := ⟨a.n, a.n, a.At⟩

/-- The capability view of a vector (an `n×1` matrix). -/
def VecDense.toMatV (a : VecDense) : MatV :=
  ⟨a.n, 1, fun i _ => a.data.getD i 0⟩

/-- The list of absolute column sums of a matrix, read generically. -/
def absColSums (m : MatV) : List ℚ :=
  (List.range m.c).map (fun j => ((List.range m.r).map (fun i => ratAbs (m.el i j))).sum)

/-- The list of absolute row sums of a matrix, read generically. -/
def absRowSums (m : MatV) : List ℚ :=
  (List.range m.r).map (fun i => ((List.range m.c).map (fun j => ratAbs (m.el i j))).sum)

/-- Maximum of a list of rationals with seed 0 (the accumulator pattern of
the norm reductions). -/
def listMax (l : List ℚ) : ℚ := l.foldr max 0

/-- The three norm orders `Norm` accepts: 1, 2 and ∞. -/
inductive NormOrder where
  | one
  | two
  | inf
deriving DecidableEq

/-- Modelled from the spec: the `mat.Norm` implementation is not under
`src/`; §4.5 defines Norm(1) as the maximum absolute column sum, Norm(∞)
as the maximum absolute row sum, Norm(2) as the largest singular value,
and requires zero-length input to fail with the distinct empty error
before any computation.  The SVD kernel behind the 2-norm is a backend
collaborator (§6) and is taken as an arbitrary function `norm2impl`. -/
def Norm (norm2impl : MatV → ℚ) (m : MatV) (ord : NormOrder) : Except MatErr ℚ :=
  if m.r = 0 ∨ m.c = 0 then .error .zeroLength
  else .ok (match ord with
    | .one => listMax (absColSums m)
    | .two => norm2impl m
    | .inf => listMax (absRowSums m))

/-- The absolute sum of column `j`, stated independently as a `Finset`
sum. -/
def colAbsSum (m : MatV) (j : Nat) : ℚ := ∑ i ∈ Finset.range m.r, |m.el i j|

/-- The absolute sum of row `i`, stated independently as a `Finset`
sum. -/
def rowAbsSum (m : MatV) (i : Nat) : ℚ := ∑ j ∈ Finset.range m.c, |m.el i j|

/-- The 2×3 matrix `[[1,-2,-2],[-4,5,6]]` from `TestNorm`. -/
def normEx23 : Dense := ⟨2, 3, [1, -2, -2, -4, 5, 6]⟩

/-- A general banded matrix with `kl` sub-diagonals and `ku`
super-diagonals, stored row-compressed with stride `kl+ku+1` (as built by
`NewBandDense`): the in-band element `(i,j)` lives at
`data[i*(kl+ku+1) + j+kl-i]`. -/
structure BandDense where
  rows : Nat
  cols : Nat
  kl : Nat
  ku : Nat
  data : List ℚ
deriving DecidableEq

/-- Element read `At` for `BandDense`: 0 outside the band, the stored entry inside. -/
def BandDense.At (a : BandDense) (i j : Nat) : ℚ :=
  if i < a.rows ∧ j < a.cols ∧ i ≤ j + a.kl ∧ j ≤ i + a.ku then
    a.data.getD (i * (a.kl + a.ku + 1) + (j + a.kl - i)) 0
  else 0

/-- Modelled from the spec: `BandDense.Trace` (not under `src/`) requires
square input and sums the stored main diagonal, which lives at in-row
offset `kl`. -/
def BandDense.Trace (a : BandDense) : Except MatErr ℚ :=
  if a.rows = a.cols then
    .ok (((List.range a.rows).map
      (fun i => a.data.getD (i * (a.kl + a.ku + 1) + a.kl) 0)).sum)
  else .error .shape

/-- A diagonal matrix with the `n` diagonal entries stored contiguously
(as built by `NewDiagDense`). -/
structure DiagDense where
  n : Nat
  data : List ℚ
deriving DecidableEq

/-- Element read `At` for `DiagDense`: 0 off the diagonal. -/
def DiagDense.At (a : DiagDense) (i j : Nat) : ℚ :=
  if i = j ∧ i < a.n then a.data.getD i 0 else 0

/-- Modelled from the spec: `DiagDense.Trace` sums the stored diagonal. -/
def DiagDense.Trace (a : DiagDense) : ℚ :=
  ((List.range a.n).map (fun i => a.data.getD i 0)).sum

/-- A symmetric banded matrix with bandwidth `k`, upper side stored with
stride `k+1` (as built by `NewSymBandDense`): the element `(i,j)` with
`i ≤ j ≤ i+k` lives at `data[i*(k+1) + j-i]`; the lower side mirrors. -/
structure SymBandDense where
  n : Nat
  k : Nat
  data : List ℚ
deriving DecidableEq

/-- Element read `At` for `SymBandDense`: mirrored reads inside the band, 0 outside. -/
def SymBandDense.At (a : SymBandDense) (i j : Nat) : ℚ :=
  if i < a.n ∧ j < a.n ∧ i ≤ j + a.k ∧ j ≤ i + a.k then
    a.data.getD (min i j * (a.k + 1) + (max i j - min i j)) 0
  else 0

/-- Modelled from the spec: `SymBandDense.Trace` sums the stored main
diagonal, at in-row offset 0 of the upper-side storage. -/
def SymBandDense.Trace (a : SymBandDense) : ℚ :=
  ((List.range a.n).map (fun i => a.data.getD (i * (a.k + 1)) 0)).sum

/-- A triangular banded matrix with bandwidth `k` (as built by
`NewTriBandDense`, non-unit diagonal), one side of the band stored with
stride `k+1`: upper `(i,j)`, `i ≤ j ≤ i+k`, at `data[i*(k+1) + j-i]`;
lower `(i,j)`, `j ≤ i ≤ j+k`, at `data[i*(k+1) + k+j-i]`. -/
structure TriBandDense where
  n : Nat
  k : Nat
  uplo : Uplo
  data : List ℚ
deriving DecidableEq

/-- Element read `At` for `TriBandDense`: 0 outside the stored triangle band. -/
def TriBandDense.At (a : TriBandDense) (i j : Nat) : ℚ :=
  if i < a.n ∧ j < a.n then
    match a.uplo with
    | .upper =>
      if i ≤ j ∧ j ≤ i + a.k then a.data.getD (i * (a.k + 1) + (j - i)) 0 else 0
    | .lower =>
      if j ≤ i ∧ i ≤ j + a.k then a.data.getD (i * (a.k + 1) + (a.k + j - i)) 0 else 0
  else 0

/-- Modelled from the spec: `TriBandDense.Trace` sums the stored main
diagonal: in-row offset 0 for upper storage, `k` for lower storage. -/
def TriBandDense.Trace (a : TriBandDense) : ℚ :=
  match a.uplo with
  | .upper => ((List.range a.n).map (fun i => a.data.getD (i * (a.k + 1)) 0)).sum
  | .lower => ((List.range a.n).map (fun i => a.data.getD (i * (a.k + 1) + a.k) 0)).sum

/-- Modelled from the spec: `mat.Trace` / `Dense.Trace` (not under `src/`)
requires a square input (shape error otherwise, §4.5) and sums the
diagonal of the row-major buffer. -/
def Dense.Trace (a : Dense) : Except MatErr ℚ :=
  if a.rows = a.cols then
    .ok (((List.range a.rows).map (fun i => a.data.getD (i * a.cols + i) 0)).sum)
  else .error .shape

/-- Modelled from the spec: `SymDense.Trace` sums the diagonal of the
full `n×n` buffer. -/
def SymDense.Trace (a : SymDense) : ℚ :=
  ((List.range a.n).map (fun i => a.data.getD (i * a.n + i) 0)).sum

/-- A tridiagonal matrix (as built by `NewTridiag`): sub-diagonal `dl`
(length `n-1`), main diagonal `d` (length `n`), super-diagonal `du`
(length `n-1`). -/
structure Tridiag where
  n : Nat
  dl : List ℚ
  d : List ℚ
  du : List ℚ
deriving DecidableEq

/-- Element read `At` for `Tridiag`: the three stored diagonals, 0 elsewhere. -/
def Tridiag.At (a : Tridiag) (i j : Nat) : ℚ :=
  if i < a.n ∧ j < a.n then
    if i = j + 1 then a.dl.getD j 0
    else if i = j then a.d.getD i 0
    else if j = i + 1 then a.du.getD i 0
    else 0
  else 0

/-- The capability view of a banded matrix. -/
def BandDense.toMatV (a : BandDense) : MatV := ⟨a.rows, a.cols, a.At⟩

/-- The capability view of a symmetric banded matrix. -/
def SymBandDense.toMatV (a : SymBandDense) : MatV := ⟨a.n, a.n, a.At⟩

/-- The capability view of a triangular banded matrix. -/
def TriBandDense.toMatV (a : TriBandDense) : MatV := ⟨a.n, a.n, a.At⟩

/-- The capability view of a tridiagonal matrix. -/
def Tridiag.toMatV (a : Tridiag) : MatV := ⟨a.n, a.n, a.At⟩

/-- The total logical sum of a matrix: `mat.Sum` reduces every logical
element (§4.5). -/
def Sum (m : MatV) : ℚ :=
  ∑ i ∈ Finset.range m.r, ∑ j ∈ Finset.range m.c, m.el i j

/-- Modelled from the spec: the row granularity of the structural-nonzero
traversal (§4.2) visits the structural cells of row `i` in column order,
invoking the callback with `(row, col, value)`.  The callback invocations
are modelled as the returned list. -/
def rowVisits (c : Nat) (p : Nat → Nat → Bool) (f : Nat → Nat → ℚ) (i : Nat) :
    List (Nat × Nat × ℚ) :=
  ((List.range c).filter (fun j => p i j)).map (fun j => (i, j, f i j))

/-- Modelled from the spec: the column granularity of the traversal. -/
def colVisits (r : Nat) (p : Nat → Nat → Bool) (f : Nat → Nat → ℚ) (j : Nat) :
    List (Nat × Nat × ℚ) :=
  ((List.range r).filter (fun i => p i j)).map (fun i => (i, j, f i j))

/-- Modelled from the spec: the whole-matrix granularity, row-major over
the structural region. -/
def allVisits (r c : Nat) (p : Nat → Nat → Bool) (f : Nat → Nat → ℚ) :
    List (Nat × Nat × ℚ) :=
  (List.range r).flatMap (rowVisits c p f)

/-- The sum of the values handed to the callback. -/
def visitSum (l : List (Nat × Nat × ℚ)) : ℚ := (l.map (fun t => t.2.2)).sum

/-- The structural predicate the triangular traversal iterates over: the
stored triangle. -/
def TriDense.doPred (a : TriDense) (i j : Nat) : Bool :=
  match a.uplo with
  | .upper => decide (i ≤ j)
  | .lower => decide (j ≤ i)

/-- Modelled from the spec: `SetTri` writes the stored triangle of the
full buffer and fails on any write outside it (§4.1). -/
def TriDense.SetTri (a : TriDense) (i j : Nat) (v : ℚ) : Except MatErr TriDense :=
  if i < a.n ∧ j < a.n ∧ a.doPred i j = true then
    .ok ⟨a.n, a.uplo, a.data.set (i * a.n + j) v⟩
  else .error .structural

/-- Modelled from the spec: whole-matrix structural-nonzero traversal for
`TriDense` — row-major over the stored triangle. -/
def TriDense.DoNonZero (a : TriDense) : List (Nat × Nat × ℚ) :=
  allVisits a.n a.n a.doPred a.At

/-- Row granularity of the `TriDense` traversal. -/
def TriDense.DoRowNonZero (a : TriDense) (i : Nat) : List (Nat × Nat × ℚ) :=
  rowVisits a.n a.doPred a.At i

/-- Column granularity of the `TriDense` traversal. -/
def TriDense.DoColNonZero (a : TriDense) (j : Nat) : List (Nat × Nat × ℚ) :=
  colVisits a.n a.doPred a.At j

/-- The structural predicate of the banded traversal: the declared band. -/
def BandDense.doPred (a : BandDense) (i j : Nat) : Bool :=
  decide (i ≤ j + a.kl ∧ j ≤ i + a.ku)

/-- Modelled from the spec: `SetBand` writes inside the declared band and
fails outside it (§4.1). -/
def BandDense.SetBand (a : BandDense) (i j : Nat) (v : ℚ) : Except MatErr BandDense :=
  if i < a.rows ∧ j < a.cols ∧ a.doPred i j = true then
    .ok ⟨a.rows, a.cols, a.kl, a.ku,
      a.data.set (i * (a.kl + a.ku + 1) + (j + a.kl - i)) v⟩
  else .error .structural

/-- Whole-matrix traversal for `BandDense`: row-major over the in-range
band. -/
def BandDense.DoNonZero (a : BandDense) : List (Nat × Nat × ℚ) :=
  allVisits a.rows a.cols a.doPred a.At

/-- Row granularity of the `BandDense` traversal. -/
def BandDense.DoRowNonZero (a : BandDense) (i : Nat) : List (Nat × Nat × ℚ) :=
  rowVisits a.cols a.doPred a.At i

/-- Column granularity of the `BandDense` traversal. -/
def BandDense.DoColNonZero (a : BandDense) (j : Nat) : List (Nat × Nat × ℚ) :=
  colVisits a.rows a.doPred a.At j

/-- The structural predicate of the symmetric banded traversal: both sides
of the band (reads mirror the stored side). -/
def SymBandDense.doPred (a : SymBandDense) (i j : Nat) : Bool :=
  decide (i ≤ j + a.k ∧ j ≤ i + a.k)

/-- Modelled from the spec: `SetSymBand` writes the stored side of the
band for either orientation of `(i,j)` inside the bandwidth, and fails
outside it. -/
def SymBandDense.SetSymBand (a : SymBandDense) (i j : Nat) (v : ℚ) :
    Except MatErr SymBandDense :=
  if i < a.n ∧ j < a.n ∧ a.doPred i j = true then
    .ok ⟨a.n, a.k, a.data.set (min i j * (a.k + 1) + (max i j - min i j)) v⟩
  else .error .structural

/-- Whole-matrix traversal for `SymBandDense`: row-major over both sides
of the band. -/
def SymBandDense.DoNonZero (a : SymBandDense) : List (Nat × Nat × ℚ) :=
  allVisits a.n a.n a.doPred a.At

/-- Row granularity of the `SymBandDense` traversal. -/
def SymBandDense.DoRowNonZero (a : SymBandDense) (i : Nat) : List (Nat × Nat × ℚ) :=
  rowVisits a.n a.doPred a.At i

/-- Column granularity of the `SymBandDense` traversal. -/
def SymBandDense.DoColNonZero (a : SymBandDense) (j : Nat) : List (Nat × Nat × ℚ) :=
  colVisits a.n a.doPred a.At j

/-- The structural predicate of the triangular banded traversal: the
stored triangle band. -/
def TriBandDense.doPred (a : TriBandDense) (i j : Nat) : Bool :=
  match a.uplo with
  | .upper => decide (i ≤ j ∧ j ≤ i + a.k)
  | .lower => decide (j ≤ i ∧ i ≤ j + a.k)

/-- Modelled from the spec: `SetTriBand` writes the stored triangle band
and fails outside it. -/
def TriBandDense.SetTriBand (a : TriBandDense) (i j : Nat) (v : ℚ) :
    Except MatErr TriBandDense :=
  if i < a.n ∧ j < a.n ∧ a.doPred i j = true then
    .ok ⟨a.n, a.k, a.uplo,
      match a.uplo with
      | .upper => a.data.set (i * (a.k + 1) + (j - i)) v
      | .lower => a.data.set (i * (a.k + 1) + (a.k + j - i)) v⟩
  else .error .structural

/-- Whole-matrix traversal for `TriBandDense`: row-major over the stored
triangle band. -/
def TriBandDense.DoNonZero (a : TriBandDense) : List (Nat × Nat × ℚ) :=
  allVisits a.n a.n a.doPred a.At

/-- Row granularity of the `TriBandDense` traversal. -/
def TriBandDense.DoRowNonZero (a : TriBandDense) (i : Nat) : List (Nat × Nat × ℚ) :=
  rowVisits a.n a.doPred a.At i

/-- Column granularity of the `TriBandDense` traversal. -/
def TriBandDense.DoColNonZero (a : TriBandDense) (j : Nat) : List (Nat × Nat × ℚ) :=
  colVisits a.n a.doPred a.At j

/-- The structural predicate of the tridiagonal traversal: the three
diagonals. -/
def Tridiag.doPred (a : Tridiag) (i j : Nat) : Bool :=
  decide (i ≤ j + 1 ∧ j ≤ i + 1)

/-- Modelled from the spec: `Tridiag.SetBand` writes one of the three
stored diagonals and fails off them. -/
def Tridiag.SetBand (a : Tridiag) (i j : Nat) (v : ℚ) : Except MatErr Tridiag :=
  if i < a.n ∧ j < a.n ∧ a.doPred i j = true then
    .ok (if i = j + 1 then ⟨a.n, a.dl.set j v, a.d, a.du⟩
      else if i = j then ⟨a.n, a.dl, a.d.set i v, a.du⟩
      else ⟨a.n, a.dl, a.d, a.du.set i v⟩)
  else .error .structural

/-- Whole-matrix traversal for `Tridiag`: row-major over the three
diagonals. -/
def Tridiag.DoNonZero (a : Tridiag) : List (Nat × Nat × ℚ) :=
  allVisits a.n a.n a.doPred a.At

/-- Row granularity of the `Tridiag` traversal. -/
def Tridiag.DoRowNonZero (a : Tridiag) (i : Nat) : List (Nat × Nat × ℚ) :=
  rowVisits a.n a.doPred a.At i

/-- Column granularity of the `Tridiag` traversal. -/
def Tridiag.DoColNonZero (a : Tridiag) (j : Nat) : List (Nat × Nat × ℚ) :=
  colVisits a.n a.doPred a.At j

/-- The dense fallback matrix-vector product (§4.3): `y[i]` accumulates
every logical element of row `i` read through the capability interface.
This is the reference the specialized kernels must match. -/
def mulVecAt (r c : Nat) (f : Nat → Nat → ℚ) (x : List ℚ) : List ℚ :=
  (List.range r).map (fun i => ∑ j ∈ Finset.range c, f i j * x.getD j 0)

/-- Modelled from the spec: the specialized banded multiply
(`Dgbmv`-style, O(bandwidth·n), §4.3): each output element accumulates
only the in-band entries of its row (column, for the transposed product).
`dst` gives the destination's pre-call contents; it is overwritten. -/
def BandDense.MulVecTo (a : BandDense) (dst : List ℚ) (trans : Bool) (x : List ℚ) :
    List ℚ :=
  if trans = false then
    (List.range a.rows).map (fun i =>
      (((List.range a.cols).filter (fun j => a.doPred i j)).map
        (fun j => a.At i j * x.getD j 0)).sum)
  else
    (List.range a.cols).map (fun i =>
      (((List.range a.rows).filter (fun j => a.doPred j i)).map
        (fun j => a.At j i * x.getD j 0)).sum)

/-- Modelled from the spec: the specialized symmetric banded multiply
(`Dsbmv`-style): both sides of the band are accumulated through the
mirrored read; the transpose flag is irrelevant for a symmetric matrix
and is ignored. -/
def SymBandDense.MulVecTo (a : SymBandDense) (dst : List ℚ) (trans : Bool)
    (x : List ℚ) : List ℚ :=
  (List.range a.n).map (fun i =>
    (((List.range a.n).filter (fun j => a.doPred i j)).map
      (fun j => a.At i j * x.getD j 0)).sum)

/-- Modelled from the spec: the specialized tridiagonal multiply
(`Dlagtm`-style): each output element is the three-term combination of
the stored diagonals, with edge guards; the transposed product swaps the
sub- and super-diagonals. -/
def Tridiag.MulVecTo (a : Tridiag) (dst : List ℚ) (trans : Bool) (x : List ℚ) :
    List ℚ :=
  if trans = false then
    (List.range a.n).map (fun i =>
      (if 1 ≤ i then a.dl.getD (i - 1) 0 * x.getD (i - 1) 0 else 0) +
      a.d.getD i 0 * x.getD i 0 +
      (if i + 1 < a.n then a.du.getD i 0 * x.getD (i + 1) 0 else 0))
  else
    (List.range a.n).map (fun i =>
      (if 1 ≤ i then a.du.getD (i - 1) 0 * x.getD (i - 1) 0 else 0) +
      a.d.getD i 0 * x.getD i 0 +
      (if i + 1 < a.n then a.dl.getD i 0 * x.getD (i + 1) 0 else 0))

/-- The `lapack.MatrixType` kinds exercised by `DlasclTest`: full matrix,
upper triangle, lower triangle. -/
inductive MatrixType where
  | general
  | upperTri
  | lowerTri
deriving DecidableEq

/-- The region of the `m×n` matrix a `Dlascl` kind scales. -/
def regionPred : MatrixType → Nat → Nat → Bool
  | .general, _, _ => true
  | .upperTri, i, j => decide (i ≤ j)
  | .lowerTri, i, j => decide (j ≤ i)

/-- One row of the `Dlascl` loop: scale the in-region entries
`a[i*lda + j]`, `j < n`, in place. -/
def rowScale (cmul : ℚ) (p : Nat → Bool) (i lda n : Nat) (a : List ℚ) : List ℚ :=
  (List.range n).foldl (fun acc j =>
    if p j then acc.set (i * lda + j) (cmul * acc.getD (i * lda + j) 0) else acc) a

/-- Modelled from the spec: the `Dlascl` kernel itself is not under
`src/` (only `DlasclTest` is); per the LAPACK contract the test encodes,
it scales the kind-selected region of the leading `m×n` submatrix of the
`lda`-strided buffer by `cto/cfrom`, in place, touching nothing else
(over exact rationals the repeated safe-scaling loop is one
multiplication). -/
def Dlascl (kind : MatrixType) (cfrom cto : ℚ) (m n : Nat) (a : List ℚ)
    (lda : Nat) : List ℚ :=
  (List.range m).foldl (fun acc i => rowScale (cto / cfrom) (regionPred kind i) i lda n acc) a

/-- Minor of a list-of-rows matrix: drop row `i` and column `j`. -/
def minorRows (rows : List (List ℚ)) (i j : Nat) : List (List ℚ) :=
  (rows.eraseIdx i).map (fun r => r.eraseIdx j)

/-- Modelled from the spec: 1-norm and ∞-norm conditioning solve for the
matrix inverse (§4.4), which fails on singular input.  Over exact
rationals the inverse of the working copy (the clone `toRows`) is the
adjugate over the determinant. -/
def Dense.inverse (a : Dense) : Option Dense :=
  let rows := a.toRows
  let dv := detGo a.rows rows
  if dv = 0 then none
  else some ⟨a.rows, a.rows, (List.range a.rows).flatMap (fun i =>
    (List.range a.rows).map (fun j =>
      (if (i + j) % 2 = 0 then (1 : ℚ) else -1) *
        detGo (a.rows - 1) (minorRows rows j i) / dv))⟩

/-- Modelled from the spec: `mat.Cond` (not under `src/`): the 1-norm and
∞-norm condition numbers are the norm of the matrix times the norm of its
inverse, a singular matrix is reported as an error, and the 2-norm case
is the singular-value ratio computed by the SVD backend collaborator,
taken as the arbitrary function `f2`. -/
def Cond (f2 : Dense → Except MatErr ℚ) (a : Dense) (ord : NormOrder) :
    Except MatErr ℚ :=
  match ord with
  | .two => f2 a
  | .one =>
    if a.rows = a.cols then
      match a.inverse with
      | none => .error .singular
      | some ai => .ok (listMax (absColSums a.toMatV) * listMax (absColSums ai.toMatV))
    else .error .shape
  | .inf =>
    if a.rows = a.cols then
      match a.inverse with
      | none => .error .singular
      | some ai => .ok (listMax (absRowSums a.toMatV) * listMax (absRowSums ai.toMatV))
    else .error .shape

/-- A call to `Cond` as the caller observes it: the returned value
together with the contents of the argument matrix after the call.  All
reads go through the clone `toRows`; the caller's matrix is returned
unchanged. -/
def CondCall (f2 : Dense → Except MatErr ℚ) (a : Dense) (ord : NormOrder) :
    Except MatErr ℚ × Dense :=
  (Cond f2 a ord, a)

/-- The 3×3 magic square of `TestCond`. -/
def condMagic : Dense := ⟨3, 3, [8, 1, 6, 3, 5, 7, 4, 9, 2]⟩

/-- C1: on the concrete `TestDet` inputs, `Det` returns the exact
determinant (1, -1 and -3; exact rational equality implies the test's
1e-14 absolute-or-relative tolerance) and the caller's matrix after the
call equals its pre-call value. -/
theorem C1_det_concrete_values_no_mutation :
    detEye2.DetCall = (.ok 1, detEye2) ∧
    detDiag2.DetCall = (.ok (-1), detDiag2) ∧
    detMat3.DetCall = (.ok (-3), detMat3) := by
  refine ⟨?_, ?_, ?_⟩ <;>
    norm_num [Dense.DetCall, Dense.Det, Dense.toRows, Dense.At, detGo, argmaxAbs,
      ratAbs, detEye2, detDiag2, detMat3, List.range_succ]

/-- C2: `Det` is total on square matrices — it returns an ordinary value,
never an error, even for singular input — and on the rank-deficient
`TestDet` matrix the returned value is exactly 0 (in the exact-arithmetic
model the zero pivot produces 0 directly; in floats this is the
underflowing-magnitude case). -/
theorem C2_det_singular_returns_zero :
    (∀ a : Dense, a.rows = a.cols → ∃ v : ℚ, a.DetCall.1 = .ok v) ∧
    detSing3.DetCall.1 = .ok 0 := by
  constructor
  · intro a h
    exact ⟨detGo a.rows a.toRows, by simp [Dense.DetCall, Dense.Det, h]⟩
  · norm_num [Dense.DetCall, Dense.Det, Dense.toRows, Dense.At, detGo, argmaxAbs,
      ratAbs, detSing3, List.range_succ]

/-- Witness for C2: the first conjunct applied to the concrete singular
matrix, whose squareness is discharged by `decide`. -/
theorem C2_det_singular_returns_zero_witness :
    ∃ v : ℚ, detSing3.DetCall.1 = .ok v :=
  C2_det_singular_returns_zero.1 detSing3 (by decide)

theorem ratAbs_eq_abs (x : ℚ) : ratAbs x = |x| := by
  rw [ratAbs]
  rcases lt_or_le x 0 with h | h
  · rw [if_pos h, abs_of_neg h]
  · rw [if_neg (not_lt.2 h), abs_of_nonneg h]

theorem absColSums_eq (m : MatV) : absColSums m =
    (List.range m.c).map (fun j => ((List.range m.r).map (fun i => |m.el i j|)).sum) := by
  simp only [absColSums, ratAbs_eq_abs]

theorem absRowSums_eq (m : MatV) : absRowSums m =
    (List.range m.r).map (fun i => ((List.range m.c).map (fun j => |m.el i j|)).sum) := by
  simp only [absRowSums, ratAbs_eq_abs]

theorem listSum_map_range (f : Nat → ℚ) (n : Nat) :
    ((List.range n).map f).sum = ∑ i ∈ Finset.range n, f i := by
  induction n with
  | zero => simp
  | succ n ih => rw [List.range_succ]; simp [ih, Finset.sum_range_succ]

theorem le_listMax (l : List ℚ) (x : ℚ) (hx : x ∈ l) : x ≤ listMax l := by
  induction l with
  | nil => cases hx
  | cons a t ih =>
    rcases List.mem_cons.1 hx with h | h
    · subst h; exact le_max_left _ _
    · exact le_trans (ih h) (le_max_right _ _)

theorem listMax_mem (l : List ℚ) (hne : l ≠ []) (hnn : ∀ x ∈ l, 0 ≤ x) :
    listMax l ∈ l := by
  induction l with
  | nil => exact absurd rfl hne
  | cons a t ih =>
    cases t with
    | nil =>
      have ha : 0 ≤ a := hnn a (List.mem_cons_self a [])
      simp [listMax, max_eq_left ha]
    | cons b t2 =>
      rcases le_total (listMax (b :: t2)) a with h | h
      · have hmax : listMax (a :: b :: t2) = a := by
          simp only [listMax, List.foldr_cons] at h ⊢
          exact max_eq_left h
        rw [hmax]
        exact List.mem_cons_self a _
      · have : listMax (a :: b :: t2) = listMax (b :: t2) := by
          simp only [listMax, List.foldr_cons] at h ⊢
          exact max_eq_right h
        rw [this]
        exact List.mem_cons_of_mem a (ih (by simp) (fun x hx => hnn x (List.mem_cons_of_mem a hx)))

/-- C3: for every non-empty matrix, Norm(·,1) is the maximum (an upper
bound that is attained) of the absolute column sums, and Norm(·,∞) the
maximum of the absolute row sums; on `[[1,-2,-2],[-4,5,6]]` they are
exactly 8 and 15. -/
theorem C3_norm_one_inf_characterization :
    (∀ (f2 : MatV → ℚ) (a : Dense), 0 < a.rows → 0 < a.cols →
      (∃ v, Norm f2 a.toMatV .one = .ok v ∧
        (∀ j < a.cols, colAbsSum a.toMatV j ≤ v) ∧
        (∃ j < a.cols, v = colAbsSum a.toMatV j)) ∧
      (∃ v, Norm f2 a.toMatV .inf = .ok v ∧
        (∀ i < a.rows, rowAbsSum a.toMatV i ≤ v) ∧
        (∃ i < a.rows, v = rowAbsSum a.toMatV i))) ∧
    (∀ f2 : MatV → ℚ,
      Norm f2 normEx23.toMatV .one = .ok 8 ∧ Norm f2 normEx23.toMatV .inf = .ok 15) := by
  constructor
  · intro f2 a hr hc
    have hrm : a.toMatV.r = a.rows := rfl
    have hcm : a.toMatV.c = a.cols := rfl
    have hne : ¬(a.toMatV.r = 0 ∨ a.toMatV.c = 0) := by omega
    constructor
    · refine ⟨listMax (absColSums a.toMatV), by simp [Norm, hne], ?_, ?_⟩
      · intro j hj
        rw [absColSums_eq]
        refine le_listMax _ _ ?_
        rw [colAbsSum, ← listSum_map_range]
        exact List.mem_map.2 ⟨j, List.mem_range.2 (by omega), rfl⟩
      · rw [absColSums_eq]
        have hmem := listMax_mem
          ((List.range a.toMatV.c).map
            (fun j => ((List.range a.toMatV.r).map (fun i => |a.toMatV.el i j|)).sum))
          (by simp [List.range_eq_nil]; omega)
          (by
            intro x hx
            rcases List.mem_map.1 hx with ⟨j, _, rfl⟩
            refine List.sum_nonneg ?_
            intro q hq
            rcases List.mem_map.1 hq with ⟨i, _, rfl⟩
            exact abs_nonneg _)
        rcases List.mem_map.1 hmem with ⟨j, hj, hv⟩
        exact ⟨j, List.mem_range.1 hj, by rw [← hv, colAbsSum, ← listSum_map_range]⟩
    · refine ⟨listMax (absRowSums a.toMatV), by simp [Norm, hne], ?_, ?_⟩
      · intro i hi
        rw [absRowSums_eq]
        refine le_listMax _ _ ?_
        rw [rowAbsSum, ← listSum_map_range]
        exact List.mem_map.2 ⟨i, List.mem_range.2 (by omega), rfl⟩
      · rw [absRowSums_eq]
        have hmem := listMax_mem
          ((List.range a.toMatV.r).map
            (fun i => ((List.range a.toMatV.c).map (fun j => |a.toMatV.el i j|)).sum))
          (by simp [List.range_eq_nil]; omega)
          (by
            intro x hx
            rcases List.mem_map.1 hx with ⟨i, _, rfl⟩
            refine List.sum_nonneg ?_
            intro q hq
            rcases List.mem_map.1 hq with ⟨j, _, rfl⟩
            exact abs_nonneg _)
        rcases List.mem_map.1 hmem with ⟨i, hi, hv⟩
        exact ⟨i, List.mem_range.1 hi, by rw [← hv, rowAbsSum, ← listSum_map_range]⟩
  · intro f2
    constructor <;>
      norm_num [Norm, listMax, absColSums, absRowSums, ratAbs, Dense.toMatV,
        Dense.At, normEx23, List.range_succ]

/-- Witness for C3: the general part applied to the concrete 2×3 matrix
of `TestNorm` (non-emptiness discharged by `decide`). -/
theorem C3_norm_one_inf_characterization_witness :
    (∃ v, Norm (fun _ => 0) normEx23.toMatV .one = .ok v ∧
      (∀ j < normEx23.cols, colAbsSum normEx23.toMatV j ≤ v) ∧
      (∃ j < normEx23.cols, v = colAbsSum normEx23.toMatV j)) ∧
    (∃ v, Norm (fun _ => 0) normEx23.toMatV .inf = .ok v ∧
      (∀ i < normEx23.rows, rowAbsSum normEx23.toMatV i ≤ v) ∧
      (∃ i < normEx23.rows, v = rowAbsSum normEx23.toMatV i)) :=
  C3_norm_one_inf_characterization.1 (fun _ => 0) normEx23 (by decide) (by decide)

/-- C4: zero-length input of every variant (Dense, SymDense, TriDense,
VecDense) makes `Norm` fail with the distinct `ErrZeroLength` error for
every order in {1, 2, ∞}, never returning a numeric value — regardless of
the 2-norm backend. -/
theorem C4_norm_zero_length_errors :
    (∀ (f2 : MatV → ℚ) (ord : NormOrder) (m : MatV), m.r = 0 ∨ m.c = 0 →
      Norm f2 m ord = .error .zeroLength) ∧
    (∀ (f2 : MatV → ℚ) (ord : NormOrder) (a : Dense), a.rows = 0 ∨ a.cols = 0 →
      Norm f2 a.toMatV ord = .error .zeroLength) ∧
    (∀ (f2 : MatV → ℚ) (ord : NormOrder) (a : SymDense), a.n = 0 →
      Norm f2 a.toMatV ord = .error .zeroLength) ∧
    (∀ (f2 : MatV → ℚ) (ord : NormOrder) (a : TriDense), a.n = 0 →
      Norm f2 a.toMatV ord = .error .zeroLength) ∧
    (∀ (f2 : MatV → ℚ) (ord : NormOrder) (a : VecDense), a.n = 0 →
      Norm f2 a.toMatV ord = .error .zeroLength) := by
  refine ⟨?_, ?_, ?_, ?_, ?_⟩
  · intro f2 ord m h; simp [Norm, h]
  · intro f2 ord a h; simp [Norm, Dense.toMatV]; omega
  · intro f2 ord a h; simp [Norm, SymDense.toMatV]; omega
  · intro f2 ord a h; simp [Norm, TriDense.toMatV]; omega
  · intro f2 ord a h; simp [Norm, VecDense.toMatV]; omega

/-- Witness for C4: the empty `Dense{}`, `SymDense{}`, `TriDense{}` and
`VecDense{}` values of `TestNormZero`, at order 2. -/
theorem C4_norm_zero_length_errors_witness :
    Norm (fun _ => 0) (Dense.toMatV ⟨0, 0, []⟩) .two = .error .zeroLength ∧
    Norm (fun _ => 0) (SymDense.toMatV ⟨0, []⟩) .two = .error .zeroLength ∧
    Norm (fun _ => 0) (TriDense.toMatV ⟨0, .upper, []⟩) .two = .error .zeroLength ∧
    Norm (fun _ => 0) (VecDense.toMatV ⟨0, []⟩) .two = .error .zeroLength :=
  ⟨C4_norm_zero_length_errors.2.1 (fun _ => 0) .two ⟨0, 0, []⟩ (Or.inl rfl),
   C4_norm_zero_length_errors.2.2.1 (fun _ => 0) .two ⟨0, []⟩ rfl,
   C4_norm_zero_length_errors.2.2.2.1 (fun _ => 0) .two ⟨0, .upper, []⟩ rfl,
   C4_norm_zero_length_errors.2.2.2.2 (fun _ => 0) .two ⟨0, []⟩ rfl⟩

/-- C5: for every variant, the storage-level `Trace` equals the sum of the
logical diagonal entries `A[i][i]` read through `At`; non-square input to
`Trace` fails with a shape error. -/
theorem C5_trace_diagonal_sum :
    (∀ a : Dense, a.rows = a.cols →
      a.Trace = .ok (∑ i ∈ Finset.range a.rows, a.At i i)) ∧
    (∀ a : Dense, a.rows ≠ a.cols → a.Trace = .error .shape) ∧
    (∀ a : SymDense, a.Trace = ∑ i ∈ Finset.range a.n, a.At i i) ∧
    (∀ a : BandDense, a.rows = a.cols →
      a.Trace = .ok (∑ i ∈ Finset.range a.rows, a.At i i)) ∧
    (∀ a : BandDense, a.rows ≠ a.cols → a.Trace = .error .shape) ∧
    (∀ a : DiagDense, a.Trace = ∑ i ∈ Finset.range a.n, a.At i i) ∧
    (∀ a : SymBandDense, a.Trace = ∑ i ∈ Finset.range a.n, a.At i i) ∧
    (∀ a : TriBandDense, a.Trace = ∑ i ∈ Finset.range a.n, a.At i i) := by
  refine ⟨?_, ?_, ?_, ?_, ?_, ?_, ?_, ?_⟩
  · intro a h
    rw [Dense.Trace, if_pos h, listSum_map_range]
    refine congrArg Except.ok (Finset.sum_congr rfl ?_)
    intro i hi
    have hi2 : i < a.rows := Finset.mem_range.1 hi
    rw [Dense.At, if_pos ⟨hi2, by omega⟩]
  · intro a h; rw [Dense.Trace, if_neg h]
  · intro a
    rw [SymDense.Trace, listSum_map_range]
    refine Finset.sum_congr rfl ?_
    intro i hi
    have hi2 : i < a.n := Finset.mem_range.1 hi
    rw [SymDense.At, if_pos ⟨hi2, hi2⟩, if_pos le_rfl]
  · intro a h
    rw [BandDense.Trace, if_pos h, listSum_map_range]
    refine congrArg Except.ok (Finset.sum_congr rfl ?_)
    intro i hi
    have hi2 : i < a.rows := Finset.mem_range.1 hi
    rw [BandDense.At, if_pos ⟨hi2, by omega, by omega, by omega⟩]
    congr 1
    omega
  · intro a h; rw [BandDense.Trace, if_neg h]
  · intro a
    rw [DiagDense.Trace, listSum_map_range]
    refine Finset.sum_congr rfl ?_
    intro i hi
    have hi2 : i < a.n := Finset.mem_range.1 hi
    rw [DiagDense.At, if_pos ⟨rfl, hi2⟩]
  · intro a
    rw [SymBandDense.Trace, listSum_map_range]
    refine Finset.sum_congr rfl ?_
    intro i hi
    have hi2 : i < a.n := Finset.mem_range.1 hi
    rw [SymBandDense.At, if_pos ⟨hi2, hi2, by omega, by omega⟩]
    simp
  · rintro ⟨n, k, u, d⟩
    cases u with
    | upper =>
      simp only [TriBandDense.Trace]
      rw [listSum_map_range]
      refine Finset.sum_congr rfl fun i hi => ?_
      have hi2 : i < n := Finset.mem_range.1 hi
      simp only [TriBandDense.At, if_pos (And.intro hi2 hi2)]
      simp
    | lower =>
      simp only [TriBandDense.Trace]
      rw [listSum_map_range]
      refine Finset.sum_congr rfl fun i hi => ?_
      have hi2 : i < n := Finset.mem_range.1 hi
      simp only [TriBandDense.At, if_pos (And.intro hi2 hi2)]
      simp only [le_refl, true_and, if_pos (by omega : i ≤ i + k)]
      congr 1
      omega

/-- Witness for C5: the square conjuncts applied to the `TestTracer`
6×6 banded matrix and the shape-error conjunct to a 2×3 dense matrix. -/
theorem C5_trace_diagonal_sum_witness :
    (BandDense.mk 6 6 1 2 [0, 1, 2, 3, 4, 5, 6, 7, 8, 9, 10, 11, 12, 13, 14, 15,
      16, 17, 18, 0, 19, 20, 0, 0]).Trace =
      .ok (∑ i ∈ Finset.range 6,
        (BandDense.mk 6 6 1 2 [0, 1, 2, 3, 4, 5, 6, 7, 8, 9, 10, 11, 12, 13, 14, 15,
          16, 17, 18, 0, 19, 20, 0, 0]).At i i) ∧
    (Dense.mk 2 3 [1, 2, 3, 4, 5, 6]).Trace = .error .shape :=
  ⟨C5_trace_diagonal_sum.2.2.2.1 _ (by decide),
   C5_trace_diagonal_sum.2.1 _ (by decide)⟩

theorem listSum_map_filter_range (p : Nat → Bool) (f : Nat → ℚ) (n : Nat) :
    (((List.range n).filter p).map f).sum =
      ∑ j ∈ Finset.range n, if p j then f j else 0 := by
  induction n with
  | zero => simp
  | succ n ih =>
    rw [List.range_succ, List.filter_append, List.map_append, List.sum_append, ih,
      Finset.sum_range_succ]
    by_cases h : p n <;> simp [h]

theorem visitSum_rowVisits (c : Nat) (p : Nat → Nat → Bool) (f : Nat → Nat → ℚ)
    (i : Nat) :
    visitSum (rowVisits c p f i) = ∑ j ∈ Finset.range c, if p i j then f i j else 0 := by
  rw [visitSum, rowVisits, List.map_map, ← listSum_map_filter_range (p i) (f i) c]
  rfl

theorem visitSum_colVisits (r : Nat) (p : Nat → Nat → Bool) (f : Nat → Nat → ℚ)
    (j : Nat) :
    visitSum (colVisits r p f j) =
      ∑ i ∈ Finset.range r, if p i j then f i j else 0 := by
  rw [visitSum, colVisits, List.map_map, ← listSum_map_filter_range (fun i => p i j) (fun i => f i j) r]
  rfl

theorem visitSum_flatMap (l : List Nat) (g : Nat → List (Nat × Nat × ℚ)) :
    visitSum (l.flatMap g) = (l.map (fun i => visitSum (g i))).sum := by
  induction l with
  | nil => simp [visitSum]
  | cons a t ih =>
    simp only [visitSum] at ih ⊢
    simp [List.flatMap_cons, ih]

theorem sum_off_pred (c : Nat) (pi : Nat → Bool) (fi : Nat → ℚ)
    (h : ∀ j, j < c → pi j = false → fi j = 0) :
    (∑ j ∈ Finset.range c, if pi j then fi j else 0) = ∑ j ∈ Finset.range c, fi j := by
  refine Finset.sum_congr rfl fun j hj => ?_
  by_cases hp : pi j
  · rw [if_pos hp]
  · rw [if_neg hp, h j (Finset.mem_range.1 hj) (Bool.not_eq_true _ ▸ by simpa using hp)]

/-- The whole-matrix traversal sums to the total matrix sum whenever the
element function vanishes off the structural predicate. -/
theorem visitSum_allVisits (r c : Nat) (p : Nat → Nat → Bool) (f : Nat → Nat → ℚ)
    (h : ∀ i j, i < r → j < c → p i j = false → f i j = 0) :
    visitSum (allVisits r c p f) =
      ∑ i ∈ Finset.range r, ∑ j ∈ Finset.range c, f i j := by
  rw [allVisits, visitSum_flatMap, listSum_map_range]
  refine Finset.sum_congr rfl fun i hi => ?_
  rw [visitSum_rowVisits]
  exact sum_off_pred c (p i) (f i) (fun j hj hp => h i j (Finset.mem_range.1 hi) hj hp)

/-- Row-by-row traversal sums to the total matrix sum. -/
theorem visitSum_rows (r c : Nat) (p : Nat → Nat → Bool) (f : Nat → Nat → ℚ)
    (h : ∀ i j, i < r → j < c → p i j = false → f i j = 0) :
    ((List.range r).map (fun i => visitSum (rowVisits c p f i))).sum =
      ∑ i ∈ Finset.range r, ∑ j ∈ Finset.range c, f i j := by
  rw [listSum_map_range]
  refine Finset.sum_congr rfl fun i hi => ?_
  rw [visitSum_rowVisits]
  exact sum_off_pred c (p i) (f i) (fun j hj hp => h i j (Finset.mem_range.1 hi) hj hp)

/-- Column-by-column traversal sums to the total matrix sum. -/
theorem visitSum_cols (r c : Nat) (p : Nat → Nat → Bool) (f : Nat → Nat → ℚ)
    (h : ∀ i j, i < r → j < c → p i j = false → f i j = 0) :
    ((List.range c).map (fun j => visitSum (colVisits r p f j))).sum =
      ∑ i ∈ Finset.range r, ∑ j ∈ Finset.range c, f i j := by
  rw [listSum_map_range, Finset.sum_comm]
  refine Finset.sum_congr rfl fun j hj => ?_
  rw [visitSum_colVisits]
  exact sum_off_pred r (fun i => p i j) (fun i => f i j)
    (fun i hi hp => h i j hi (Finset.mem_range.1 hj) hp)

theorem mem_rowVisits {c : Nat} {p : Nat → Nat → Bool} {f : Nat → Nat → ℚ}
    {i : Nat} {t : Nat × Nat × ℚ} (h : t ∈ rowVisits c p f i) :
    t.1 = i ∧ t.2.1 < c ∧ p i t.2.1 = true := by
  rcases List.mem_map.1 h with ⟨j, hj, rfl⟩
  rcases List.mem_filter.1 hj with ⟨hjr, hp⟩
  exact ⟨rfl, List.mem_range.1 hjr, hp⟩

theorem mem_colVisits {r : Nat} {p : Nat → Nat → Bool} {f : Nat → Nat → ℚ}
    {j : Nat} {t : Nat × Nat × ℚ} (h : t ∈ colVisits r p f j) :
    t.2.1 = j ∧ t.1 < r ∧ p t.1 j = true := by
  rcases List.mem_map.1 h with ⟨i, hi, rfl⟩
  rcases List.mem_filter.1 hi with ⟨hir, hp⟩
  exact ⟨rfl, List.mem_range.1 hir, hp⟩

theorem mem_allVisits {r c : Nat} {p : Nat → Nat → Bool} {f : Nat → Nat → ℚ}
    {t : Nat × Nat × ℚ} (h : t ∈ allVisits r c p f) :
    t.1 < r ∧ t.2.1 < c ∧ p t.1 t.2.1 = true := by
  rcases List.mem_flatMap.1 h with ⟨i, hi, ht⟩
  rcases mem_rowVisits ht with ⟨h1, h2, h3⟩
  subst h1
  exact ⟨List.mem_range.1 hi, h2, h3⟩

theorem TriDense.triAt_off (a : TriDense) (i j : Nat) (hi : i < a.n)
    (hj : j < a.n) (hp : a.doPred i j = false) : a.At i j = 0 := by
  rw [TriDense.At, if_pos ⟨hi, hj⟩]
  cases h : a.uplo with
  | upper =>
    simp only [TriDense.doPred, h, decide_eq_false_iff_not] at hp
    simp [hp]
  | lower =>
    simp only [TriDense.doPred, h, decide_eq_false_iff_not] at hp
    simp [hp]

theorem TriDense.triSet_ok (a : TriDense) {i j : Nat} (v : ℚ) (hi : i < a.n)
    (hj : j < a.n) (hp : a.doPred i j = true) :
    ∃ mm, a.SetTri i j v = .ok mm :=
  ⟨_, by rw [TriDense.SetTri, if_pos ⟨hi, hj, hp⟩]⟩

theorem BandDense.bandAt_off (a : BandDense) (i j : Nat) (hi : i < a.rows)
    (hj : j < a.cols) (hp : a.doPred i j = false) : a.At i j = 0 := by
  simp only [BandDense.doPred, decide_eq_false_iff_not] at hp
  rw [BandDense.At, if_neg (by tauto)]

theorem BandDense.bandSet_ok (a : BandDense) {i j : Nat} (v : ℚ) (hi : i < a.rows)
    (hj : j < a.cols) (hp : a.doPred i j = true) :
    ∃ mm, a.SetBand i j v = .ok mm :=
  ⟨_, by rw [BandDense.SetBand, if_pos ⟨hi, hj, hp⟩]⟩

theorem SymBandDense.symBandAt_off (a : SymBandDense) (i j : Nat) (hi : i < a.n)
    (hj : j < a.n) (hp : a.doPred i j = false) : a.At i j = 0 := by
  simp only [SymBandDense.doPred, decide_eq_false_iff_not] at hp
  rw [SymBandDense.At, if_neg (by tauto)]

theorem SymBandDense.symBandSet_ok (a : SymBandDense) {i j : Nat} (v : ℚ) (hi : i < a.n)
    (hj : j < a.n) (hp : a.doPred i j = true) :
    ∃ mm, a.SetSymBand i j v = .ok mm :=
  ⟨_, by rw [SymBandDense.SetSymBand, if_pos ⟨hi, hj, hp⟩]⟩

theorem TriBandDense.triBandAt_off (a : TriBandDense) (i j : Nat) (hi : i < a.n)
    (hj : j < a.n) (hp : a.doPred i j = false) : a.At i j = 0 := by
  rw [TriBandDense.At, if_pos ⟨hi, hj⟩]
  cases h : a.uplo with
  | upper =>
    simp only [TriBandDense.doPred, h, decide_eq_false_iff_not] at hp
    simp only [h]
    rw [if_neg hp]
  | lower =>
    simp only [TriBandDense.doPred, h, decide_eq_false_iff_not] at hp
    simp only [h]
    rw [if_neg hp]

theorem TriBandDense.triBandSet_ok (a : TriBandDense) {i j : Nat} (v : ℚ) (hi : i < a.n)
    (hj : j < a.n) (hp : a.doPred i j = true) :
    ∃ mm, a.SetTriBand i j v = .ok mm :=
  ⟨_, by rw [TriBandDense.SetTriBand, if_pos ⟨hi, hj, hp⟩]⟩

theorem Tridiag.tridiagAt_off (a : Tridiag) (i j : Nat) (hi : i < a.n)
    (hj : j < a.n) (hp : a.doPred i j = false) : a.At i j = 0 := by
  simp only [Tridiag.doPred, decide_eq_false_iff_not] at hp
  rw [Tridiag.At, if_pos ⟨hi, hj⟩]
  rw [if_neg (by omega), if_neg (by omega), if_neg (by omega)]

theorem Tridiag.tridiagSet_ok (a : Tridiag) {i j : Nat} (v : ℚ) (hi : i < a.n)
    (hj : j < a.n) (hp : a.doPred i j = true) :
    ∃ mm, a.SetBand i j v = .ok mm :=
  ⟨_, by rw [Tridiag.SetBand, if_pos ⟨hi, hj, hp⟩]⟩

/-- C6: for every triangular, banded, symmetric-banded, triangular-banded
and tridiagonal matrix, each traversal granularity (whole matrix, every
row, every column) visits only cells inside the mutable structural region
— writing back through the structure's `Set` at each visited cell
succeeds — and the values visited under each granularity sum to `Sum m`. -/
theorem C6_traversal_structural_and_sums :
    (∀ a : TriDense,
      (∀ t ∈ a.DoNonZero, ∃ mm, a.SetTri t.1 t.2.1 t.2.2 = .ok mm) ∧
      visitSum a.DoNonZero = Sum a.toMatV ∧
      (∀ i < a.n, ∀ t ∈ a.DoRowNonZero i, ∃ mm, a.SetTri t.1 t.2.1 t.2.2 = .ok mm) ∧
      ((List.range a.n).map (fun i => visitSum (a.DoRowNonZero i))).sum = Sum a.toMatV ∧
      (∀ j < a.n, ∀ t ∈ a.DoColNonZero j, ∃ mm, a.SetTri t.1 t.2.1 t.2.2 = .ok mm) ∧
      ((List.range a.n).map (fun j => visitSum (a.DoColNonZero j))).sum = Sum a.toMatV) ∧
    (∀ a : BandDense,
      (∀ t ∈ a.DoNonZero, ∃ mm, a.SetBand t.1 t.2.1 t.2.2 = .ok mm) ∧
      visitSum a.DoNonZero = Sum a.toMatV ∧
      (∀ i < a.rows, ∀ t ∈ a.DoRowNonZero i, ∃ mm, a.SetBand t.1 t.2.1 t.2.2 = .ok mm) ∧
      ((List.range a.rows).map (fun i => visitSum (a.DoRowNonZero i))).sum = Sum a.toMatV ∧
      (∀ j < a.cols, ∀ t ∈ a.DoColNonZero j, ∃ mm, a.SetBand t.1 t.2.1 t.2.2 = .ok mm) ∧
      ((List.range a.cols).map (fun j => visitSum (a.DoColNonZero j))).sum = Sum a.toMatV) ∧
    (∀ a : SymBandDense,
      (∀ t ∈ a.DoNonZero, ∃ mm, a.SetSymBand t.1 t.2.1 t.2.2 = .ok mm) ∧
      visitSum a.DoNonZero = Sum a.toMatV ∧
      (∀ i < a.n, ∀ t ∈ a.DoRowNonZero i, ∃ mm, a.SetSymBand t.1 t.2.1 t.2.2 = .ok mm) ∧
      ((List.range a.n).map (fun i => visitSum (a.DoRowNonZero i))).sum = Sum a.toMatV ∧
      (∀ j < a.n, ∀ t ∈ a.DoColNonZero j, ∃ mm, a.SetSymBand t.1 t.2.1 t.2.2 = .ok mm) ∧
      ((List.range a.n).map (fun j => visitSum (a.DoColNonZero j))).sum = Sum a.toMatV) ∧
    (∀ a : TriBandDense,
      (∀ t ∈ a.DoNonZero, ∃ mm, a.SetTriBand t.1 t.2.1 t.2.2 = .ok mm) ∧
      visitSum a.DoNonZero = Sum a.toMatV ∧
      (∀ i < a.n, ∀ t ∈ a.DoRowNonZero i, ∃ mm, a.SetTriBand t.1 t.2.1 t.2.2 = .ok mm) ∧
      ((List.range a.n).map (fun i => visitSum (a.DoRowNonZero i))).sum = Sum a.toMatV ∧
      (∀ j < a.n, ∀ t ∈ a.DoColNonZero j, ∃ mm, a.SetTriBand t.1 t.2.1 t.2.2 = .ok mm) ∧
      ((List.range a.n).map (fun j => visitSum (a.DoColNonZero j))).sum = Sum a.toMatV) ∧
    (∀ a : Tridiag,
      (∀ t ∈ a.DoNonZero, ∃ mm, a.SetBand t.1 t.2.1 t.2.2 = .ok mm) ∧
      visitSum a.DoNonZero = Sum a.toMatV ∧
      (∀ i < a.n, ∀ t ∈ a.DoRowNonZero i, ∃ mm, a.SetBand t.1 t.2.1 t.2.2 = .ok mm) ∧
      ((List.range a.n).map (fun i => visitSum (a.DoRowNonZero i))).sum = Sum a.toMatV ∧
      (∀ j < a.n, ∀ t ∈ a.DoColNonZero j, ∃ mm, a.SetBand t.1 t.2.1 t.2.2 = .ok mm) ∧
      ((List.range a.n).map (fun j => visitSum (a.DoColNonZero j))).sum = Sum a.toMatV) := by
  refine ⟨fun a => ⟨?_, ?_, ?_, ?_, ?_, ?_⟩, fun a => ⟨?_, ?_, ?_, ?_, ?_, ?_⟩,
    fun a => ⟨?_, ?_, ?_, ?_, ?_, ?_⟩, fun a => ⟨?_, ?_, ?_, ?_, ?_, ?_⟩,
    fun a => ⟨?_, ?_, ?_, ?_, ?_, ?_⟩⟩
  · intro t ht
    obtain ⟨h1, h2, h3⟩ := mem_allVisits ht
    exact a.triSet_ok t.2.2 h1 h2 h3
  · exact visitSum_allVisits a.n a.n a.doPred a.At a.triAt_off
  · intro i hi t ht
    obtain ⟨rfl, h2, h3⟩ := mem_rowVisits ht
    exact a.triSet_ok t.2.2 hi h2 h3
  · exact visitSum_rows a.n a.n a.doPred a.At a.triAt_off
  · intro j hj t ht
    obtain ⟨rfl, h2, h3⟩ := mem_colVisits ht
    exact a.triSet_ok t.2.2 h2 hj h3
  · exact visitSum_cols a.n a.n a.doPred a.At a.triAt_off
  · intro t ht
    obtain ⟨h1, h2, h3⟩ := mem_allVisits ht
    exact a.bandSet_ok t.2.2 h1 h2 h3
  · exact visitSum_allVisits a.rows a.cols a.doPred a.At a.bandAt_off
  · intro i hi t ht
    obtain ⟨rfl, h2, h3⟩ := mem_rowVisits ht
    exact a.bandSet_ok t.2.2 hi h2 h3
  · exact visitSum_rows a.rows a.cols a.doPred a.At a.bandAt_off
  · intro j hj t ht
    obtain ⟨rfl, h2, h3⟩ := mem_colVisits ht
    exact a.bandSet_ok t.2.2 h2 hj h3
  · exact visitSum_cols a.rows a.cols a.doPred a.At a.bandAt_off
  · intro t ht
    obtain ⟨h1, h2, h3⟩ := mem_allVisits ht
    exact a.symBandSet_ok t.2.2 h1 h2 h3
  · exact visitSum_allVisits a.n a.n a.doPred a.At a.symBandAt_off
  · intro i hi t ht
    obtain ⟨rfl, h2, h3⟩ := mem_rowVisits ht
    exact a.symBandSet_ok t.2.2 hi h2 h3
  · exact visitSum_rows a.n a.n a.doPred a.At a.symBandAt_off
  · intro j hj t ht
    obtain ⟨rfl, h2, h3⟩ := mem_colVisits ht
    exact a.symBandSet_ok t.2.2 h2 hj h3
  · exact visitSum_cols a.n a.n a.doPred a.At a.symBandAt_off
  · intro t ht
    obtain ⟨h1, h2, h3⟩ := mem_allVisits ht
    exact a.triBandSet_ok t.2.2 h1 h2 h3
  · exact visitSum_allVisits a.n a.n a.doPred a.At a.triBandAt_off
  · intro i hi t ht
    obtain ⟨rfl, h2, h3⟩ := mem_rowVisits ht
    exact a.triBandSet_ok t.2.2 hi h2 h3
  · exact visitSum_rows a.n a.n a.doPred a.At a.triBandAt_off
  · intro j hj t ht
    obtain ⟨rfl, h2, h3⟩ := mem_colVisits ht
    exact a.triBandSet_ok t.2.2 h2 hj h3
  · exact visitSum_cols a.n a.n a.doPred a.At a.triBandAt_off
  · intro t ht
    obtain ⟨h1, h2, h3⟩ := mem_allVisits ht
    exact a.tridiagSet_ok t.2.2 h1 h2 h3
  · exact visitSum_allVisits a.n a.n a.doPred a.At a.tridiagAt_off
  · intro i hi t ht
    obtain ⟨rfl, h2, h3⟩ := mem_rowVisits ht
    exact a.tridiagSet_ok t.2.2 hi h2 h3
  · exact visitSum_rows a.n a.n a.doPred a.At a.tridiagAt_off
  · intro j hj t ht
    obtain ⟨rfl, h2, h3⟩ := mem_colVisits ht
    exact a.tridiagSet_ok t.2.2 h2 hj h3
  · exact visitSum_cols a.n a.n a.doPred a.At a.tridiagAt_off

/-- Witness for C6: the 1×1 tridiagonal matrix `NewTridiag(1, nil,
ones(1), nil)` of `TestDoer`; each granularity's visited cell `(0,0,1)`
is writable through `SetBand`. -/
theorem C6_traversal_structural_and_sums_witness :
    (∃ mm, (Tridiag.mk 1 [] [1] []).SetBand 0 0 1 = .ok mm) ∧
    (∃ mm, (Tridiag.mk 1 [] [1] []).SetBand 0 0 1 = .ok mm) ∧
    (∃ mm, (Tridiag.mk 1 [] [1] []).SetBand 0 0 1 = .ok mm) :=
  ⟨(C6_traversal_structural_and_sums.2.2.2.2 (Tridiag.mk 1 [] [1] [])).1
      (0, 0, 1) (by decide),
   (C6_traversal_structural_and_sums.2.2.2.2 (Tridiag.mk 1 [] [1] [])).2.2.1
      0 (by decide) (0, 0, 1) (by decide),
   (C6_traversal_structural_and_sums.2.2.2.2 (Tridiag.mk 1 [] [1] [])).2.2.2.2.1
      0 (by decide) (0, 0, 1) (by decide)⟩

theorem BandDense.bandMulVec_notrans (a : BandDense) (dst x : List ℚ) :
    a.MulVecTo dst false x = mulVecAt a.rows a.cols a.At x := by
  rw [BandDense.MulVecTo, if_pos rfl, mulVecAt]
  refine List.map_congr_left fun i hi => ?_
  rw [listSum_map_filter_range]
  exact sum_off_pred a.cols (a.doPred i) (fun j => a.At i j * x.getD j 0)
    (fun j hj hp => by
      show a.At i j * x.getD j 0 = 0
      rw [a.bandAt_off i j (List.mem_range.1 hi) hj hp, zero_mul])

theorem BandDense.bandMulVec_trans (a : BandDense) (dst x : List ℚ) :
    a.MulVecTo dst true x = mulVecAt a.cols a.rows (fun i j => a.At j i) x := by
  rw [BandDense.MulVecTo, if_neg (by decide), mulVecAt]
  refine List.map_congr_left fun i hi => ?_
  rw [listSum_map_filter_range]
  exact sum_off_pred a.rows (fun j => a.doPred j i) (fun j => a.At j i * x.getD j 0)
    (fun j hj hp => by
      show a.At j i * x.getD j 0 = 0
      rw [a.bandAt_off j i hj (List.mem_range.1 hi) hp, zero_mul])

theorem SymBandDense.At_symm (a : SymBandDense) (i j : Nat) : a.At i j = a.At j i := by
  rw [SymBandDense.At, SymBandDense.At]
  by_cases h : i < a.n ∧ j < a.n ∧ i ≤ j + a.k ∧ j ≤ i + a.k
  · rw [if_pos h, if_pos (by tauto), min_comm, max_comm]
  · rw [if_neg h, if_neg (by tauto)]

theorem SymBandDense.mulVecTo_eq (a : SymBandDense) (dst x : List ℚ) (trans : Bool) :
    a.MulVecTo dst trans x = mulVecAt a.n a.n a.At x := by
  rw [SymBandDense.MulVecTo, mulVecAt]
  refine List.map_congr_left fun i hi => ?_
  rw [listSum_map_filter_range]
  exact sum_off_pred a.n (a.doPred i) (fun j => a.At i j * x.getD j 0)
    (fun j hj hp => by
      show a.At i j * x.getD j 0 = 0
      rw [a.symBandAt_off i j (List.mem_range.1 hi) hj hp, zero_mul])

theorem SymBandDense.mulVecTo_eq_trans (a : SymBandDense) (dst x : List ℚ)
    (trans : Bool) :
    a.MulVecTo dst trans x = mulVecAt a.n a.n (fun i j => a.At j i) x := by
  rw [a.mulVecTo_eq dst x trans, mulVecAt, mulVecAt]
  exact List.map_congr_left fun i _ =>
    Finset.sum_congr rfl fun j _ => by rw [SymBandDense.At_symm]

theorem Tridiag.at_mul_split (a : Tridiag) (x : List ℚ) (i j : Nat)
    (hi : i < a.n) (hj : j < a.n) :
    a.At i j * x.getD j 0 =
      (if i = j + 1 then a.dl.getD j 0 * x.getD j 0 else 0) +
      (if i = j then a.d.getD i 0 * x.getD j 0 else 0) +
      (if j = i + 1 then a.du.getD i 0 * x.getD j 0 else 0) := by
  rw [Tridiag.At, if_pos ⟨hi, hj⟩]
  split_ifs <;> first | omega | ring

theorem Tridiag.at_mul_split_col (a : Tridiag) (x : List ℚ) (i j : Nat)
    (hi : i < a.n) (hj : j < a.n) :
    a.At j i * x.getD j 0 =
      (if i = j + 1 then a.du.getD j 0 * x.getD j 0 else 0) +
      (if j = i then a.d.getD j 0 * x.getD j 0 else 0) +
      (if j = i + 1 then a.dl.getD i 0 * x.getD j 0 else 0) := by
  rw [Tridiag.At, if_pos ⟨hj, hi⟩]
  split_ifs <;> first | omega | ring

theorem Tridiag.row_sum (a : Tridiag) (x : List ℚ) (i : Nat) (hi : i < a.n) :
    ∑ j ∈ Finset.range a.n, a.At i j * x.getD j 0 =
      (if 1 ≤ i then a.dl.getD (i - 1) 0 * x.getD (i - 1) 0 else 0) +
      a.d.getD i 0 * x.getD i 0 +
      (if i + 1 < a.n then a.du.getD i 0 * x.getD (i + 1) 0 else 0) := by
  rw [Finset.sum_congr rfl
    (fun j hj => a.at_mul_split x i j hi (Finset.mem_range.1 hj)),
    Finset.sum_add_distrib, Finset.sum_add_distrib]
  congr 1
  · congr 1
    · by_cases h1 : 1 ≤ i
      · rw [if_pos h1,
          Finset.sum_eq_single_of_mem (i - 1) (Finset.mem_range.2 (by omega))
            (fun b _ hbne => if_neg (by omega)),
          if_pos (by omega)]
      · rw [if_neg h1, Finset.sum_eq_zero (fun b _ => if_neg (by omega))]
    · rw [Finset.sum_eq_single_of_mem i (Finset.mem_range.2 hi)
        (fun b _ hbne => if_neg (by omega)), if_pos rfl]
  · by_cases h3 : i + 1 < a.n
    · rw [if_pos h3,
        Finset.sum_eq_single_of_mem (i + 1) (Finset.mem_range.2 h3)
          (fun b _ hbne => if_neg (by omega)),
        if_pos rfl]
    · rw [if_neg h3, Finset.sum_eq_zero (fun b hb => if_neg
        (by have := Finset.mem_range.1 hb; omega))]

theorem Tridiag.col_sum (a : Tridiag) (x : List ℚ) (i : Nat) (hi : i < a.n) :
    ∑ j ∈ Finset.range a.n, a.At j i * x.getD j 0 =
      (if 1 ≤ i then a.du.getD (i - 1) 0 * x.getD (i - 1) 0 else 0) +
      a.d.getD i 0 * x.getD i 0 +
      (if i + 1 < a.n then a.dl.getD i 0 * x.getD (i + 1) 0 else 0) := by
  rw [Finset.sum_congr rfl
    (fun j hj => a.at_mul_split_col x i j hi (Finset.mem_range.1 hj)),
    Finset.sum_add_distrib, Finset.sum_add_distrib]
  congr 1
  · congr 1
    · by_cases h1 : 1 ≤ i
      · rw [if_pos h1,
          Finset.sum_eq_single_of_mem (i - 1) (Finset.mem_range.2 (by omega))
            (fun b _ hbne => if_neg (by omega)),
          if_pos (by omega)]
      · rw [if_neg h1, Finset.sum_eq_zero (fun b _ => if_neg (by omega))]
    · rw [Finset.sum_eq_single_of_mem i (Finset.mem_range.2 hi)
        (fun b _ hbne => if_neg (by omega)), if_pos rfl]
  · by_cases h3 : i + 1 < a.n
    · rw [if_pos h3,
        Finset.sum_eq_single_of_mem (i + 1) (Finset.mem_range.2 h3)
          (fun b _ hbne => if_neg (by omega)),
        if_pos rfl]
    · rw [if_neg h3, Finset.sum_eq_zero (fun b hb => if_neg
        (by have := Finset.mem_range.1 hb; omega))]

theorem Tridiag.tridiagMulVec_notrans (a : Tridiag) (dst x : List ℚ) :
    a.MulVecTo dst false x = mulVecAt a.n a.n a.At x := by
  rw [Tridiag.MulVecTo, if_pos rfl, mulVecAt]
  exact List.map_congr_left fun i hi => (a.row_sum x i (List.mem_range.1 hi)).symm

theorem Tridiag.tridiagMulVec_trans (a : Tridiag) (dst x : List ℚ) :
    a.MulVecTo dst true x = mulVecAt a.n a.n (fun i j => a.At j i) x := by
  rw [Tridiag.MulVecTo, if_neg (by decide), mulVecAt]
  exact List.map_congr_left fun i hi => (a.col_sum x i (List.mem_range.1 hi)).symm

/-- C7: for every banded, symmetric-banded and tridiagonal matrix, every
vector `x`, every destination contents and both transpose settings, the
specialized `MulVecTo` kernel equals the dense fallback (the generic
`At`-reading product of the matrix, or of its transpose) — exactly, in
the rational model. -/
theorem C7_mulVecTo_matches_dense_fallback :
    (∀ (a : BandDense) (dst x : List ℚ),
      a.MulVecTo dst false x = mulVecAt a.rows a.cols a.At x ∧
      a.MulVecTo dst true x = mulVecAt a.cols a.rows (fun i j => a.At j i) x) ∧
    (∀ (a : SymBandDense) (dst x : List ℚ) (trans : Bool),
      a.MulVecTo dst trans x = mulVecAt a.n a.n a.At x ∧
      a.MulVecTo dst trans x = mulVecAt a.n a.n (fun i j => a.At j i) x) ∧
    (∀ (a : Tridiag) (dst x : List ℚ),
      a.MulVecTo dst false x = mulVecAt a.n a.n a.At x ∧
      a.MulVecTo dst true x = mulVecAt a.n a.n (fun i j => a.At j i) x) :=
  ⟨fun a dst x => ⟨a.bandMulVec_notrans dst x, a.bandMulVec_trans dst x⟩,
   fun a dst x trans => ⟨a.mulVecTo_eq dst x trans, a.mulVecTo_eq_trans dst x trans⟩,
   fun a dst x => ⟨a.tridiagMulVec_notrans dst x, a.tridiagMulVec_trans dst x⟩⟩

/-- C10: for square banded, symmetric-banded and tridiagonal matrices the
specialized multiply is correct even when the destination is the same
vector as the input (`dst == x`): the result equals the dense-fallback
product of the pre-aliasing values of `x`. -/
theorem C10_mulVecTo_self_aliasing :
    (∀ (a : BandDense) (v : List ℚ), a.rows = a.cols →
      a.MulVecTo v false v = mulVecAt a.rows a.cols a.At v ∧
      a.MulVecTo v true v = mulVecAt a.cols a.rows (fun i j => a.At j i) v) ∧
    (∀ (a : SymBandDense) (v : List ℚ) (trans : Bool),
      a.MulVecTo v trans v = mulVecAt a.n a.n a.At v) ∧
    (∀ (a : Tridiag) (v : List ℚ),
      a.MulVecTo v false v = mulVecAt a.n a.n a.At v ∧
      a.MulVecTo v true v = mulVecAt a.n a.n (fun i j => a.At j i) v) :=
  ⟨fun a v _ => ⟨a.bandMulVec_notrans v v, a.bandMulVec_trans v v⟩,
   fun a v trans => a.mulVecTo_eq v v trans,
   fun a v => ⟨a.tridiagMulVec_notrans v v, a.tridiagMulVec_trans v v⟩⟩

/-- Witness for C10: the square band matrix `NewBandDense(1,1,0,0,·)`
with the aliased vector `[2]` (squareness discharged by `decide`). -/
theorem C10_mulVecTo_self_aliasing_witness :
    (BandDense.mk 1 1 0 0 [3]).MulVecTo [2] false [2] =
      mulVecAt 1 1 (BandDense.mk 1 1 0 0 [3]).At [2] ∧
    (BandDense.mk 1 1 0 0 [3]).MulVecTo [2] true [2] =
      mulVecAt 1 1 (fun i j => (BandDense.mk 1 1 0 0 [3]).At j i) [2] :=
  C10_mulVecTo_self_aliasing.1 (BandDense.mk 1 1 0 0 [3]) [2] (by decide)

theorem getD_set_self (l : List ℚ) (t : Nat) (v : ℚ) :
    (l.set t v).getD t 0 = if t < l.length then v else l.getD t 0 := by
  by_cases h : t < l.length
  · rw [if_pos h]
    simp [List.getD_eq_getElem?_getD, List.getElem?_set_self, h]
  · rw [if_neg h, List.set_eq_of_length_le (by omega)]

theorem getD_set_ne (l : List ℚ) (t q : Nat) (v : ℚ) (hne : q ≠ t) :
    (l.set t v).getD q 0 = l.getD q 0 := by
  simp [List.getD_eq_getElem?_getD, List.getElem?_set_ne (by omega : t ≠ q)]

theorem rowScale_spec (cmul : ℚ) (p : Nat → Bool) (i lda : Nat) (n : Nat)
    (a : List ℚ) :
    (rowScale cmul p i lda n a).length = a.length ∧
    ∀ q, (rowScale cmul p i lda n a).getD q 0 =
      if i * lda ≤ q ∧ q < i * lda + n ∧ p (q - i * lda) = true
      then cmul * a.getD q 0 else a.getD q 0 := by
  induction n with
  | zero =>
    refine ⟨rfl, fun q => ?_⟩
    rw [if_neg (by rintro ⟨h1, h2, _⟩; omega)]
    rfl
  | succ n ih =>
    obtain ⟨ihl, ihg⟩ := ih
    have hstep : rowScale cmul p i lda (n + 1) a =
        if p n = true then
          (rowScale cmul p i lda n a).set (i * lda + n)
            (cmul * (rowScale cmul p i lda n a).getD (i * lda + n) 0)
        else rowScale cmul p i lda n a := by
      rw [rowScale, rowScale, List.range_succ, List.foldl_append, List.foldl_cons,
        List.foldl_nil]
    have hprev : (rowScale cmul p i lda n a).getD (i * lda + n) 0 =
        a.getD (i * lda + n) 0 := by
      rw [ihg (i * lda + n), if_neg (by rintro ⟨h1, h2, _⟩; omega)]
    constructor
    · rw [hstep]
      by_cases hp : p n = true
      · rw [if_pos hp, List.length_set, ihl]
      · rw [if_neg hp, ihl]
    · intro q
      rw [hstep]
      by_cases hp : p n = true
      · rw [if_pos hp]
        by_cases hq : q = i * lda + n
        · subst hq
          rw [getD_set_self, hprev]
          by_cases hlen : i * lda + n < (rowScale cmul p i lda n a).length
          · rw [if_pos hlen, if_pos ⟨by omega, by omega,
              by rw [show i * lda + n - i * lda = n from by omega]; exact hp⟩]
          · rw [if_neg hlen,
              if_pos ⟨by omega, by omega,
                by rw [show i * lda + n - i * lda = n from by omega]; exact hp⟩]
            have hout : a.length ≤ i * lda + n := by rw [← ihl]; omega
            rw [List.getD_eq_default _ _ hout, mul_zero]
        · rw [getD_set_ne _ _ _ _ hq, ihg q]
          by_cases hc : i * lda ≤ q ∧ q < i * lda + n ∧ p (q - i * lda) = true
          · rw [if_pos hc, if_pos ⟨hc.1, by omega, hc.2.2⟩]
          · rw [if_neg hc, if_neg ?_]
            rintro ⟨h1, h2, h3⟩
            exact hc ⟨h1, by omega, h3⟩
      · rw [if_neg hp, ihg q]
        by_cases hc : i * lda ≤ q ∧ q < i * lda + n ∧ p (q - i * lda) = true
        · rw [if_pos hc, if_pos ⟨hc.1, by omega, hc.2.2⟩]
        · rw [if_neg hc, if_neg ?_]
          rintro ⟨h1, h2, h3⟩
          by_cases hq : q = i * lda + n
          · rw [show q - i * lda = n from by omega] at h3
            exact hp h3
          · exact hc ⟨h1, by omega, h3⟩

theorem rowdecomp_unique (lda n : Nat) (hn : n ≤ lda) {i j i2 j2 : Nat}
    (hj : j < n) (hj2 : j2 < n) (he : i * lda + j = i2 * lda + j2) :
    i = i2 ∧ j = j2 := by
  rcases Nat.lt_trichotomy i i2 with hlt | heq | hgt
  · exfalso
    have h1 : (i + 1) * lda ≤ i2 * lda := Nat.mul_le_mul_right lda hlt
    have h2 : (i + 1) * lda = i * lda + lda := by ring
    omega
  · exact ⟨heq, by subst heq; omega⟩
  · exfalso
    have h1 : (i2 + 1) * lda ≤ i * lda := Nat.mul_le_mul_right lda hgt
    have h2 : (i2 + 1) * lda = i2 * lda + lda := by ring
    omega

theorem Dlascl_spec (kind : MatrixType) (cfrom cto : ℚ) (lda : Nat) (m n : Nat)
    (a : List ℚ) (hn : n ≤ lda) :
    (Dlascl kind cfrom cto m n a lda).length = a.length ∧
    ∀ q, (Dlascl kind cfrom cto m n a lda).getD q 0 =
      if ∃ i, i < m ∧ ∃ j, j < n ∧ q = i * lda + j ∧ regionPred kind i j = true
      then cto / cfrom * a.getD q 0 else a.getD q 0 := by
  induction m with
  | zero =>
    refine ⟨rfl, fun q => ?_⟩
    rw [if_neg (by rintro ⟨i, hi, _⟩; omega)]
    rfl
  | succ m ih =>
    obtain ⟨ihl, ihg⟩ := ih
    have hstep : Dlascl kind cfrom cto (m + 1) n a lda =
        rowScale (cto / cfrom) (regionPred kind m) m lda n
          (Dlascl kind cfrom cto m n a lda) := by
      rw [Dlascl, Dlascl, List.range_succ, List.foldl_append, List.foldl_cons,
        List.foldl_nil]
    obtain ⟨hrl, hrg⟩ := rowScale_spec (cto / cfrom) (regionPred kind m) m lda n
      (Dlascl kind cfrom cto m n a lda)
    constructor
    · rw [hstep, hrl, ihl]
    · intro q
      rw [hstep, hrg q]
      by_cases hrow : m * lda ≤ q ∧ q < m * lda + n ∧
          regionPred kind m (q - m * lda) = true
      · rw [if_pos hrow, ihg q, if_neg ?_, if_pos ?_]
        · exact ⟨m, by omega, q - m * lda, by omega, by omega, hrow.2.2⟩
        · rintro ⟨i, hi, j, hj, he, hpred⟩
          have h1 : (i + 1) * lda ≤ m * lda := Nat.mul_le_mul_right lda hi
          have h2 : (i + 1) * lda = i * lda + lda := by ring
          omega
      · rw [if_neg hrow, ihg q]
        by_cases hc : ∃ i, i < m ∧ ∃ j, j < n ∧ q = i * lda + j ∧
            regionPred kind i j = true
        · rw [if_pos hc]
          rcases hc with ⟨i, hi, j, hj, he, hpred⟩
          rw [if_pos ⟨i, by omega, j, hj, he, hpred⟩]
        · rw [if_neg hc, if_neg ?_]
          rintro ⟨i, hi, j, hj, he, hpred⟩
          by_cases him : i = m
          · subst him
            refine hrow ⟨by omega, by omega, ?_⟩
            rw [show q - i * lda = j from by omega]
            exact hpred
          · exact hc ⟨i, by omega, j, hj, he, hpred⟩

/-- C9: for `m×n`, stride `lda ≥ n` and nonzero scale factors, `Dlascl`
preserves the buffer length; with a triangular kind it leaves the other
strict triangle bitwise unchanged; in all kinds it writes nothing outside
the leading `m×n` submatrix (stride padding and the buffer tail included);
and every in-region entry becomes exactly `(cto/cfrom)` times its original
value. -/
theorem C9_dlascl_frame (kind : MatrixType) (cfrom cto : ℚ) (m n lda : Nat)
    (a : List ℚ) (hn : n ≤ lda) (hcf : cfrom ≠ 0) :
    (Dlascl kind cfrom cto m n a lda).length = a.length ∧
    (∀ i j, kind = .upperTri → i < m → j < n → j < i →
      (Dlascl kind cfrom cto m n a lda).getD (i * lda + j) 0 =
        a.getD (i * lda + j) 0) ∧
    (∀ i j, kind = .lowerTri → i < m → j < n → i < j →
      (Dlascl kind cfrom cto m n a lda).getD (i * lda + j) 0 =
        a.getD (i * lda + j) 0) ∧
    (∀ q, (∀ i j, i < m → j < n → q ≠ i * lda + j) →
      (Dlascl kind cfrom cto m n a lda).getD q 0 = a.getD q 0) ∧
    (∀ i j, i < m → j < n → regionPred kind i j = true →
      (Dlascl kind cfrom cto m n a lda).getD (i * lda + j) 0 =
        cto / cfrom * a.getD (i * lda + j) 0) := by
  obtain ⟨hlen, hchar⟩ := Dlascl_spec kind cfrom cto lda m n a hn
  refine ⟨hlen, ?_, ?_, ?_, ?_⟩
  · intro i j hk hi hj hji
    rw [hchar, if_neg ?_]
    rintro ⟨i2, hi2, j2, hj2, he, hpred⟩
    obtain ⟨rfl, rfl⟩ := rowdecomp_unique lda n hn hj hj2 he
    rw [hk] at hpred
    simp only [regionPred, decide_eq_true_eq] at hpred
    omega
  · intro i j hk hi hj hij
    rw [hchar, if_neg ?_]
    rintro ⟨i2, hi2, j2, hj2, he, hpred⟩
    obtain ⟨rfl, rfl⟩ := rowdecomp_unique lda n hn hj hj2 he
    rw [hk] at hpred
    simp only [regionPred, decide_eq_true_eq] at hpred
    omega
  · intro q hq
    rw [hchar, if_neg ?_]
    rintro ⟨i, hi, j, hj, he, _⟩
    exact hq i j hi hj he
  · intro i j hi hj hpred
    rw [hchar, if_pos ⟨i, hi, j, hj, rfl, hpred⟩]

/-- Witness for C9: the UpperTri kind on the 2×2 buffer `[1,2,3,4]` with
`cfrom = 2`, `cto = 3`: the strictly-lower entry `a[1][0]` is untouched
and the upper entry `a[0][1]` is scaled by `3/2`. -/
theorem C9_dlascl_frame_witness :
    (Dlascl .upperTri 2 3 2 2 [1, 2, 3, 4] 2).getD 2 0 =
      ([1, 2, 3, 4] : List ℚ).getD 2 0 ∧
    (Dlascl .upperTri 2 3 2 2 [1, 2, 3, 4] 2).getD 1 0 =
      3 / 2 * ([1, 2, 3, 4] : List ℚ).getD 1 0 :=
  ⟨(C9_dlascl_frame .upperTri 2 3 2 2 2 [1, 2, 3, 4] (by decide)
      (by decide)).2.1 1 0 rfl (by decide) (by decide) (by decide),
   (C9_dlascl_frame .upperTri 2 3 2 2 2 [1, 2, 3, 4] (by decide)
      (by decide)).2.2.2.2 0 1 (by decide) (by decide) (by decide)⟩

set_option maxHeartbeats 2000000 in
/-- C8: `Cond` leaves its argument element-for-element unchanged for every
matrix, every norm order and every SVD backend — the caller's matrix
after the call equals the input — and on the `TestCond` magic square the
1-norm and ∞-norm condition numbers are exactly 16/3. -/
theorem C8_cond_pure_no_mutation :
    (∀ (f2 : Dense → Except MatErr ℚ) (a : Dense) (ord : NormOrder),
      (CondCall f2 a ord).2 = a) ∧
    (∀ f2 : Dense → Except MatErr ℚ,
      (CondCall f2 condMagic .one).1 = .ok (16 / 3) ∧
      (CondCall f2 condMagic .inf).1 = .ok (16 / 3)) := by
  refine ⟨fun f2 a ord => rfl, fun f2 => ?_⟩
  constructor <;>
    norm_num [CondCall, Cond, Dense.inverse, Dense.toRows, Dense.At, detGo,
      argmaxAbs, ratAbs, minorRows, listMax, absColSums, absRowSums, Dense.toMatV,
      condMagic, List.range_succ, List.flatMap_cons, List.flatMap_nil]

end Gonum
